import Mathlib

/-!
Verification of the room-coordination (signaling) server of the
video-stream repository.

The server keeps a `Map<string, Room>` from room code to room state, where a
`Room` has an optional `streamer` connection id and a `Set` of viewer
connection ids.  Socket handlers `join-room`, `signal`, `leave-room` and
`disconnect` read and mutate this table and emit messages to connections.

The embedding below models:
  - the JS `Map` as an insertion-ordered association list with unique keys
    (`tableGet` / `tableSet` / `tableDelete` mirror `get` / `set` / `delete`);
  - the JS `Set` of viewers as an insertion-ordered duplicate-free list
    (`addViewer` mirrors `Set.add`, `List.erase` mirrors `Set.delete`,
    membership mirrors `Set.has`);
  - each socket handler as a pure function from the table (plus the event's
    arguments) to the new table and the list of messages emitted, in emission
    order.  An emitted message is a pair of the target connection id and the
    event payload.

The `role` field of a join request is modelled as a `String`, matching the
runtime semantics of the handler (the TypeScript annotation
`'streamer' | 'viewer'` is not checked at runtime; the handler only tests
`role === 'streamer'`).  Signal payloads are opaque; they are modelled as
`String` and never inspected.
-/

namespace VideoStream

/-- `interface Room { streamer?: string; viewers: Set<string> }`.
The optional `streamer` field holds at most one connection id by
construction. -/
structure Room where
  streamer : Option String
  viewers  : List String
deriving DecidableEq, Repr

/-- The messages the server emits to clients, one constructor per
`emit` call site in the handler. -/
inductive Msg where
  | error (text : String)
  | streamerJoined
  | viewerJoined (viewerId : String)
  | signalFrom (sender : String) (payload : String)
  | streamerSignal (payload : String)
  | viewerDisconnected (viewerId : String)
  | streamerDisconnected
deriving DecidableEq, Repr

/-- An emitted message: target connection id paired with the payload. -/
abbrev Emit := String × Msg

/-- `const rooms = new Map<string, Room>()`, as an insertion-ordered
association list. -/
abbrev RoomTable := List (String × Room)

/-- `rooms.get(k)` / `rooms.has(k)`: first binding of the key, if any. -/
def tableGet : RoomTable → String → Option Room
  | [], _ => none
  | (k, v) :: rest, key => if k = key then some v else tableGet rest key

/-- `rooms.set(k, v)`: update the existing binding in place, or append. -/
def tableSet : RoomTable → String → Room → RoomTable
  | [], key, v => [(key, v)]
  | (k, w) :: rest, key, v =>
      if k = key then (key, v) :: rest else (k, w) :: tableSet rest key v

/-- `rooms.delete(k)`: drop the binding of the key. -/
def tableDelete : RoomTable → String → RoomTable
  | [], _ => []
  | (k, w) :: rest, key =>
      if k = key then tableDelete rest key else (k, w) :: tableDelete rest key

/-- `room.viewers.add(c)`: a JS `Set` ignores an element already present and
appends a new one. -/
def addViewer (viewers : List String) (c : String) : List String :=
  if c ∈ viewers then viewers else viewers ++ [c]

/-- The body of the `join-room` handler after the room entry has been ensured:
`t1` is the table containing an entry for `roomId` whose value is `room`. -/
def joinInRoom (t1 : RoomTable) (roomId role socketId : String) (room : Room) :
    RoomTable × List Emit :=
  if role = "streamer" then
    match room.streamer with
    | some _ => (t1, [(socketId, Msg.error "Room already has a streamer")])
    | none =>
        (tableSet t1 roomId ⟨some socketId, room.viewers⟩,
         room.viewers.map (fun v => (v, Msg.streamerJoined)))
  else
    (tableSet t1 roomId ⟨room.streamer, addViewer room.viewers socketId⟩,
     match room.streamer with
     | some s => [(s, Msg.viewerJoined socketId)]
     | none => [])

/-- The `join-room` handler: create the entry if absent (with no streamer and
an empty viewer set), then run the role-dependent body on the entry's value. -/
def joinRoom (t : RoomTable) (roomId role socketId : String) :
    RoomTable × List Emit :=
  match tableGet t roomId with
  | some room => joinInRoom t roomId role socketId room
  | none =>
      joinInRoom (tableSet t roomId ⟨none, []⟩) roomId role socketId ⟨none, []⟩

/-- The `signal` handler: `to === 'streamer'` resolves the room's streamer and
forwards `{from, signal}` to it (silently dropping the message when the room
or its streamer is absent); any other destination receives the payload
directly as `streamer-signal`.  The handler never mutates the table. -/
def signalOp (t : RoomTable) (dest payload roomId socketId : String) :
    RoomTable × List Emit :=
  if dest = "streamer" then
    match tableGet t roomId with
    | some roomData =>
        match roomData.streamer with
        | some s => (t, [(s, Msg.signalFrom socketId payload)])
        | none => (t, [])
    | none => (t, [])
  else
    (t, [(dest, Msg.streamerSignal payload)])

/-- The shared teardown body of `handleLeaveRoom` and `handleDisconnect`
(the two source functions are textually identical): given the departing
connection and a room's value, return the room's new value (`none` when the
entry is deleted) and the emitted messages. -/
def teardown (socketId : String) (room : Room) : Option Room × List Emit :=
  if room.streamer = some socketId then
    (none, room.viewers.map (fun v => (v, Msg.streamerDisconnected)))
  else if socketId ∈ room.viewers then
    (if room.streamer = none ∧ room.viewers.erase socketId = [] then
       none
     else
       some ⟨room.streamer, room.viewers.erase socketId⟩,
     match room.streamer with
     | some s => [(s, Msg.viewerDisconnected socketId)]
     | none => [])
  else (some room, [])

/-- `handleLeaveRoom` (also the `leave-room` handler): no-op when the room is
absent, otherwise apply the teardown to the room's entry. -/
def handleLeaveRoom (t : RoomTable) (socketId roomId : String) :
    RoomTable × List Emit :=
  match tableGet t roomId with
  | none => (t, [])
  | some room =>
      match teardown socketId room with
      | (none, emits) => (tableDelete t roomId, emits)
      | (some room', emits) => (tableSet t roomId room', emits)

/-- The `disconnect` handler: `rooms.forEach` applies `handleDisconnect` to
every entry; each application only reads and writes its own entry, so the
scan is a structural traversal of the table. -/
def disconnect : RoomTable → String → RoomTable × List Emit
  | [], _ => ([], [])
  | (k, room) :: rest, socketId =>
      match teardown socketId room, disconnect rest socketId with
      | (none, es), (rest', es') => (rest', es ++ es')
      | (some room', es), (rest', es') => ((k, room') :: rest', es ++ es')

/-- One client-to-server event. -/
inductive Op where
  | join (roomId role socketId : String)
  | signal (dest payload roomId socketId : String)
  | leave (roomId socketId : String)
  | disc (socketId : String)
deriving DecidableEq, Repr

/-- Dispatch one event to its handler. -/
def applyOp (t : RoomTable) : Op → RoomTable × List Emit
  | Op.join r role c => joinRoom t r role c
  | Op.signal d p r c => signalOp t d p r c
  | Op.leave r c => handleLeaveRoom t c r
  | Op.disc c => disconnect t c

/-- Run a sequence of events from a given table. -/
def runFrom (t : RoomTable) : List Op → RoomTable
  | [] => t
  | op :: ops => runFrom (applyOp t op).1 ops

/-- Run a sequence of events from the initial empty table; `run ops` is the
reachable state after `ops`. -/
def run (ops : List Op) : RoomTable := runFrom [] ops

/-- The viewer set recorded for a room code; an absent entry records no
viewers. -/
def viewersOf (t : RoomTable) (r : String) : List String :=
  match tableGet t r with
  | some room => room.viewers
  | none => []

/-! ### Lemmas about the table primitives -/

theorem tableGet_mem {k : String} {v : Room} :
    ∀ {t : RoomTable}, tableGet t k = some v → (k, v) ∈ t := by
  intro t
  induction t with
  | nil => intro h; simp [tableGet] at h
  | cons e rest ih =>
      intro h
      obtain ⟨k', w⟩ := e
      by_cases hk : k' = k
      · subst hk
        simp [tableGet] at h
        simp [h]
      · simp [tableGet, hk] at h
        exact List.mem_cons_of_mem _ (ih h)

theorem tableGet_set_self (t : RoomTable) (k : String) (v : Room) :
    tableGet (tableSet t k v) k = some v := by
  induction t with
  | nil => simp [tableSet, tableGet]
  | cons e rest ih =>
      obtain ⟨k', w⟩ := e
      by_cases hk : k' = k
      · simp [tableSet, hk, tableGet]
      · simp [tableSet, hk, tableGet, ih]

theorem tableSet_self {t : RoomTable} {k : String} {v : Room}
    (h : tableGet t k = some v) : tableSet t k v = t := by
  induction t with
  | nil => simp [tableGet] at h
  | cons e rest ih =>
      obtain ⟨k', w⟩ := e
      by_cases hk : k' = k
      · subst hk
        simp [tableGet] at h
        simp [tableSet, h]
      · simp [tableGet, hk] at h
        simp [tableSet, hk, ih h]

theorem tableGet_delete_self (t : RoomTable) (k : String) :
    tableGet (tableDelete t k) k = none := by
  induction t with
  | nil => simp [tableDelete, tableGet]
  | cons e rest ih =>
      obtain ⟨k', w⟩ := e
      by_cases hk : k' = k
      · simp [tableDelete, hk, ih]
      · simp [tableDelete, hk, tableGet, ih]

theorem mem_tableSet {t : RoomTable} {k : String} {v : Room} {e : String × Room} :
    e ∈ tableSet t k v → e ∈ t ∨ e = (k, v) := by
  induction t with
  | nil => intro h; simp [tableSet] at h; simp [h]
  | cons e' rest ih =>
      obtain ⟨k', w⟩ := e'
      intro h
      by_cases hk : k' = k
      · simp only [tableSet, if_pos hk, List.mem_cons] at h
        rcases h with h | h
        · right; exact h
        · left; exact List.mem_cons_of_mem _ h
      · simp only [tableSet, if_neg hk, List.mem_cons] at h
        rcases h with h | h
        · left; simp [h]
        · rcases ih h with h' | h'
          · left; exact List.mem_cons_of_mem _ h'
          · right; exact h'

theorem mem_tableDelete {t : RoomTable} {k : String} {e : String × Room} :
    e ∈ tableDelete t k → e ∈ t := by
  induction t with
  | nil => simp [tableDelete]
  | cons e' rest ih =>
      obtain ⟨k', w⟩ := e'
      intro h
      by_cases hk : k' = k
      · simp only [tableDelete, if_pos hk] at h
        exact List.mem_cons_of_mem _ (ih h)
      · simp only [tableDelete, if_neg hk, List.mem_cons] at h
        rcases h with h | h
        · simp [h]
        · exact List.mem_cons_of_mem _ (ih h)

theorem tableDelete_of_not_mem_keys {t : RoomTable} {k : String}
    (h : k ∉ t.map Prod.fst) : tableDelete t k = t := by
  induction t with
  | nil => simp [tableDelete]
  | cons e rest ih =>
      obtain ⟨k', w⟩ := e
      simp only [List.map_cons, List.mem_cons] at h
      push_neg at h
      simp [tableDelete, Ne.symm h.1, ih h.2]

/-! ### Lemmas about teardown and disconnect -/

theorem joinRoom_eq_some {t : RoomTable} {r : String} {room : Room} (role c : String)
    (hg : tableGet t r = some room) :
    joinRoom t r role c = joinInRoom t r role c room := by
  unfold joinRoom
  rw [hg]

theorem joinRoom_eq_none {t : RoomTable} {r : String} (role c : String)
    (hg : tableGet t r = none) :
    joinRoom t r role c = joinInRoom (tableSet t r ⟨none, []⟩) r role c ⟨none, []⟩ := by
  unfold joinRoom
  rw [hg]

theorem joinInRoom_not_streamer {t1 : RoomTable} {r role c : String} {room : Room}
    (hrole : role ≠ "streamer") :
    joinInRoom t1 r role c room = joinInRoom t1 r "viewer" c room := by
  unfold joinInRoom
  rw [if_neg hrole, if_neg (by decide : ¬("viewer" : String) = "streamer")]

theorem handleLeaveRoom_eq_none {t : RoomTable} {r : String} (c : String)
    (hg : tableGet t r = none) : handleLeaveRoom t c r = (t, []) := by
  unfold handleLeaveRoom
  rw [hg]

theorem handleLeaveRoom_eq_some {t : RoomTable} {r : String} {room : Room} (c : String)
    (hg : tableGet t r = some room) :
    handleLeaveRoom t c r =
      (match teardown c room with
       | (none, emits) => (tableDelete t r, emits)
       | (some room', emits) => (tableSet t r room', emits)) := by
  unfold handleLeaveRoom
  rw [hg]

theorem handleLeaveRoom_cons_ne {k r : String} (hk : k ≠ r) (room : Room)
    (rest : RoomTable) (c : String) :
    handleLeaveRoom ((k, room) :: rest) c r =
      ((k, room) :: (handleLeaveRoom rest c r).1, (handleLeaveRoom rest c r).2) := by
  unfold handleLeaveRoom
  simp only [tableGet, if_neg hk]
  cases hg : tableGet rest r with
  | none => rfl
  | some room2 =>
      cases htd : teardown c room2 with
      | mk o es =>
        cases o with
        | none => simp [htd, tableDelete, hk]
        | some room' => simp [htd, tableSet, hk]

theorem teardown_not_member {c : String} {room : Room}
    (h1 : room.streamer ≠ some c) (h2 : c ∉ room.viewers) :
    teardown c room = (some room, []) := by
  simp [teardown, h1, h2]

theorem disconnect_clean {c : String} :
    ∀ {t : RoomTable}, (∀ e ∈ t, e.2.streamer ≠ some c ∧ c ∉ e.2.viewers) →
      disconnect t c = (t, []) := by
  intro t
  induction t with
  | nil => intro _; rfl
  | cons e rest ih =>
      intro h
      obtain ⟨k, room⟩ := e
      have hh := h (k, room) (List.mem_cons_self _ _)
      have hr := ih (fun e he => h e (List.mem_cons_of_mem _ he))
      simp [disconnect, teardown_not_member hh.1 hh.2, hr]

theorem disconnect_eq_leave {c r : String} :
    ∀ {t : RoomTable} {rm : Room}, tableGet t r = some rm →
      (t.map Prod.fst).Nodup →
      (∀ e ∈ t, e.1 ≠ r → e.2.streamer ≠ some c ∧ c ∉ e.2.viewers) →
      disconnect t c = handleLeaveRoom t c r := by
  intro t
  induction t with
  | nil => intro rm hget _ _; simp [tableGet] at hget
  | cons e rest ih =>
      intro rm hget hkeys hother
      obtain ⟨k, room⟩ := e
      simp only [List.map_cons, List.nodup_cons] at hkeys
      by_cases hk : k = r
      · subst hk
        simp [tableGet] at hget
        subst hget
        have hrest : ∀ e ∈ rest, e.2.streamer ≠ some c ∧ c ∉ e.2.viewers := by
          intro e he
          refine hother e (List.mem_cons_of_mem _ he) ?_
          intro hek
          exact hkeys.1 (by rw [← hek]; exact List.mem_map_of_mem Prod.fst he)
        have hclean := disconnect_clean hrest
        cases htd : teardown c room with
        | mk o es =>
          cases o with
          | none =>
              simp [disconnect, htd, hclean, handleLeaveRoom, tableGet, tableDelete,
                    tableDelete_of_not_mem_keys hkeys.1]
          | some room' =>
              simp [disconnect, htd, hclean, handleLeaveRoom, tableGet, tableSet]
      · have hhead := hother (k, room) (List.mem_cons_self _ _) hk
        have htdh := teardown_not_member hhead.1 hhead.2
        simp only [tableGet, if_neg hk] at hget
        have hoth' : ∀ e ∈ rest, e.1 ≠ r → e.2.streamer ≠ some c ∧ c ∉ e.2.viewers :=
          fun e he hne => hother e (List.mem_cons_of_mem _ he) hne
        have hrec := ih hget hkeys.2 hoth'
        rw [handleLeaveRoom_cons_ne hk]
        cases hdr : handleLeaveRoom rest c r with
        | mk t2 es2 =>
            rw [hdr] at hrec
            simp [disconnect, htdh, hrec]

/-! ### The duplicate-free-viewers invariant on reachable states -/

/-- Every room value in the table has a duplicate-free viewer list (the image
of the JS `Set`). -/
def ViewersNodup (t : RoomTable) : Prop := ∀ e ∈ t, (e.2).viewers.Nodup

theorem addViewer_nodup {l : List String} {c : String} (h : l.Nodup) :
    (addViewer l c).Nodup := by
  unfold addViewer
  by_cases hc : c ∈ l
  · simp [hc, h]
  · simp [hc, List.nodup_append, h]

theorem viewersNodup_tableSet {t : RoomTable} {k : String} {v : Room}
    (ht : ViewersNodup t) (hv : v.viewers.Nodup) : ViewersNodup (tableSet t k v) := by
  intro e he
  rcases mem_tableSet he with h | h
  · exact ht e h
  · subst h; exact hv

theorem viewersNodup_joinInRoom {t1 : RoomTable} {r role c : String} {room : Room}
    (ht : ViewersNodup t1) (hroom : room.viewers.Nodup) :
    ViewersNodup (joinInRoom t1 r role c room).1 := by
  unfold joinInRoom
  split
  · split
    · exact ht
    · exact viewersNodup_tableSet ht hroom
  · exact viewersNodup_tableSet ht (addViewer_nodup hroom)

theorem viewersNodup_joinRoom {t : RoomTable} {r role c : String}
    (ht : ViewersNodup t) : ViewersNodup (joinRoom t r role c).1 := by
  unfold joinRoom
  cases hg : tableGet t r with
  | some room => exact viewersNodup_joinInRoom ht (ht _ (tableGet_mem hg))
  | none =>
      exact viewersNodup_joinInRoom (viewersNodup_tableSet ht (by simp)) (by simp)

theorem signalOp_fst (t : RoomTable) (d p r c : String) : (signalOp t d p r c).1 = t := by
  unfold signalOp
  split
  · split
    · split <;> rfl
    · rfl
  · rfl

theorem teardown_viewers_nodup {c : String} {room room' : Room} {es : List Emit}
    (h : room.viewers.Nodup) (htd : teardown c room = (some room', es)) :
    room'.viewers.Nodup := by
  unfold teardown at htd
  split at htd
  · simp at htd
  · split at htd
    · split at htd
      · simp at htd
      · simp only [Prod.mk.injEq, Option.some.injEq] at htd
        rw [← htd.1]
        exact h.erase _
    · simp only [Prod.mk.injEq, Option.some.injEq] at htd
      rw [← htd.1]
      exact h

theorem viewersNodup_handleLeaveRoom {t : RoomTable} {c r : String}
    (ht : ViewersNodup t) : ViewersNodup (handleLeaveRoom t c r).1 := by
  cases hg : tableGet t r with
  | none =>
      rw [handleLeaveRoom_eq_none c hg]
      exact ht
  | some room =>
      rw [handleLeaveRoom_eq_some c hg]
      cases htd : teardown c room with
      | mk o es =>
        cases o with
        | none =>
            show ViewersNodup (tableDelete t r)
            exact fun e he => ht e (mem_tableDelete he)
        | some room' =>
            show ViewersNodup (tableSet t r room')
            exact viewersNodup_tableSet ht
              (teardown_viewers_nodup (ht _ (tableGet_mem hg)) htd)

theorem viewersNodup_disconnect {c : String} :
    ∀ {t : RoomTable}, ViewersNodup t → ViewersNodup (disconnect t c).1 := by
  intro t
  induction t with
  | nil => intro h e he; simp [disconnect] at he
  | cons e rest ih =>
      intro h
      obtain ⟨k, room⟩ := e
      have hroom : room.viewers.Nodup := h _ (List.mem_cons_self _ _)
      have hrest := ih (fun e he => h e (List.mem_cons_of_mem _ he))
      unfold disconnect
      cases htd : teardown c room with
      | mk o es =>
        cases o with
        | none =>
            cases hdr : disconnect rest c with
            | mk rest' es' =>
                intro e he
                simp only at he
                exact hrest e (by rw [hdr]; exact he)
        | some room' =>
            cases hdr : disconnect rest c with
            | mk rest' es' =>
                intro e he
                simp only [List.mem_cons] at he
                rcases he with he | he
                · subst he
                  exact teardown_viewers_nodup hroom htd
                · exact hrest e (by rw [hdr]; exact he)

theorem viewersNodup_applyOp {t : RoomTable} (op : Op) (ht : ViewersNodup t) :
    ViewersNodup (applyOp t op).1 := by
  cases op with
  | join r role c => exact viewersNodup_joinRoom ht
  | signal d p r c =>
      show ViewersNodup (signalOp t d p r c).1
      rw [signalOp_fst]
      exact ht
  | leave r c => exact viewersNodup_handleLeaveRoom ht
  | disc c => exact viewersNodup_disconnect ht

theorem viewersNodup_runFrom {t : RoomTable} (ops : List Op) (ht : ViewersNodup t) :
    ViewersNodup (runFrom t ops) := by
  induction ops generalizing t with
  | nil => exact ht
  | cons op ops ih => exact ih (viewersNodup_applyOp op ht)

/-! ### The claims -/

/-- Claim C1: the streamer slot of a room holds at most one connection id (in
the source's `Room` record it is a single optional field), and a `join-room`
request with role `streamer` on a room whose streamer slot is already
occupied by a different connection emits the error notification to the
requesting connection only and leaves the room table unchanged, so the first
streamer remains assigned. -/
theorem join_second_streamer_rejected (t : RoomTable) (r c s : String) (rm : Room)
    (hget : tableGet t r = some rm) (hs : rm.streamer = some s) (hne : s ≠ c) :
    joinRoom t r "streamer" c = (t, [(c, Msg.error "Room already has a streamer")]) := by
  rw [joinRoom_eq_some "streamer" c hget]
  unfold joinInRoom
  rw [if_pos rfl, hs]

/-- Witness for `join_second_streamer_rejected` at a concrete state: `S`
already streams in room `R`, and connection `C2` asks to stream there. -/
theorem join_second_streamer_rejected_witness :
    joinRoom [("R", ⟨some "S", ["V"]⟩)] "R" "streamer" "C2"
      = ([("R", ⟨some "S", ["V"]⟩)], [("C2", Msg.error "Room already has a streamer")]) :=
  join_second_streamer_rejected [("R", ⟨some "S", ["V"]⟩)] "R" "C2" "S"
    ⟨some "S", ["V"]⟩ (by decide) rfl (by decide)

/-- Claim C2: when `C` is the streamer of room `r`, both `leave-room` and
`disconnect` emit `streamer-disconnected` to every connection in `r`'s
viewer set (and nothing else) and delete `r`'s entry unconditionally, even
when viewers remain.  The `disconnect` conjunct is stated under the table
shape the server maintains — unique keys — plus the hypothesis that `C`
occupies no room other than `r`, so the scan over all rooms only acts on
`r`'s entry. -/
theorem streamer_leave_deletes_room (t : RoomTable) (r c : String) (rm : Room)
    (hget : tableGet t r = some rm) (hs : rm.streamer = some c)
    (hkeys : (t.map Prod.fst).Nodup)
    (hother : ∀ e ∈ t, e.1 ≠ r → e.2.streamer ≠ some c ∧ c ∉ e.2.viewers) :
    handleLeaveRoom t c r
        = (tableDelete t r, rm.viewers.map (fun v => (v, Msg.streamerDisconnected)))
    ∧ disconnect t c
        = (tableDelete t r, rm.viewers.map (fun v => (v, Msg.streamerDisconnected))) := by
  have htd : teardown c rm
      = (none, rm.viewers.map (fun v => (v, Msg.streamerDisconnected))) := by
    unfold teardown
    rw [if_pos hs]
  have h1 : handleLeaveRoom t c r
      = (tableDelete t r, rm.viewers.map (fun v => (v, Msg.streamerDisconnected))) := by
    rw [handleLeaveRoom_eq_some c hget, htd]
  exact ⟨h1, by rw [disconnect_eq_leave hget hkeys hother]; exact h1⟩

/-- Witness for `streamer_leave_deletes_room`: `S` streams to viewers `V1`
and `V2` in room `R`; both departure paths delete the room and notify both
viewers, though viewers remain. -/
theorem streamer_leave_deletes_room_witness :
    handleLeaveRoom [("R", ⟨some "S", ["V1", "V2"]⟩)] "S" "R"
        = ([], [("V1", Msg.streamerDisconnected), ("V2", Msg.streamerDisconnected)])
    ∧ disconnect [("R", ⟨some "S", ["V1", "V2"]⟩)] "S"
        = ([], [("V1", Msg.streamerDisconnected), ("V2", Msg.streamerDisconnected)]) :=
  streamer_leave_deletes_room [("R", ⟨some "S", ["V1", "V2"]⟩)] "R" "S"
    ⟨some "S", ["V1", "V2"]⟩ (by decide) rfl (by decide) (by decide)

/-- Claim C3: after the streamer of `r` departs (explicit `leave-room` or
`disconnect`), the entry for `r` is absent from the table if and only if
`r`'s recorded viewer set is empty.  Both sides hold unconditionally: the
entry is always deleted, and an absent entry records no viewers. -/
theorem streamer_leave_absent_iff_no_viewers (t : RoomTable) (r c : String) (rm : Room)
    (hget : tableGet t r = some rm) (hs : rm.streamer = some c)
    (hkeys : (t.map Prod.fst).Nodup)
    (hother : ∀ e ∈ t, e.1 ≠ r → e.2.streamer ≠ some c ∧ c ∉ e.2.viewers) :
    (tableGet (handleLeaveRoom t c r).1 r = none
        ↔ viewersOf (handleLeaveRoom t c r).1 r = [])
    ∧ (tableGet (disconnect t c).1 r = none
        ↔ viewersOf (disconnect t c).1 r = []) := by
  have htd : teardown c rm
      = (none, rm.viewers.map (fun v => (v, Msg.streamerDisconnected))) := by
    unfold teardown
    rw [if_pos hs]
  have h1 : (handleLeaveRoom t c r).1 = tableDelete t r := by
    rw [handleLeaveRoom_eq_some c hget, htd]
  have h2 : (disconnect t c).1 = tableDelete t r := by
    rw [disconnect_eq_leave hget hkeys hother, h1]
  have hv : viewersOf (tableDelete t r) r = [] := by
    simp [viewersOf, tableGet_delete_self]
  rw [h1, h2, tableGet_delete_self, hv]
  simp

/-- Witness for `streamer_leave_absent_iff_no_viewers` at a state with a
remaining viewer. -/
theorem streamer_leave_absent_iff_no_viewers_witness :
    (tableGet (handleLeaveRoom [("R", ⟨some "S", ["V"]⟩)] "S" "R").1 "R" = none
        ↔ viewersOf (handleLeaveRoom [("R", ⟨some "S", ["V"]⟩)] "S" "R").1 "R" = [])
    ∧ (tableGet (disconnect [("R", ⟨some "S", ["V"]⟩)] "S").1 "R" = none
        ↔ viewersOf (disconnect [("R", ⟨some "S", ["V"]⟩)] "S").1 "R" = []) :=
  streamer_leave_absent_iff_no_viewers [("R", ⟨some "S", ["V"]⟩)] "R" "S"
    ⟨some "S", ["V"]⟩ (by decide) rfl (by decide) (by decide)

/-- Claim C4 counterexample: with streamer `S` and viewer `V` in room `R`, a
repeated join with the same role is not silent.  `S` re-joining as streamer
hits the occupied-slot guard (which does not compare the ids) and receives
the error notification, although the claim requires no error; `V` re-joining
as viewer makes the handler emit `viewer-joined` to `S` a second time,
although the claim requires no duplicate notification and an unchanged
message history for other parties. -/
theorem rejoin_emits_counterexample :
    (joinRoom [("R", ⟨some "S", ["V"]⟩)] "R" "streamer" "S").2
        = [("S", Msg.error "Room already has a streamer")]
    ∧ (joinRoom [("R", ⟨some "S", ["V"]⟩)] "R" "viewer" "V").2
        = [("S", Msg.viewerJoined "V")] := by
  decide

/-- Claim C4 amended: a repeated join by the same connection with the same
role never duplicates membership — the table is returned unchanged — but it
is not silent: re-joining as streamer is answered with the
`Room already has a streamer` error notification to the requester, and
re-joining as viewer re-emits `viewer-joined` (carrying the requester) to
the room's streamer when one is present. -/
theorem rejoin_state_unchanged (t : RoomTable) (r c : String) (rm : Room)
    (hget : tableGet t r = some rm) :
    (rm.streamer = some c →
      joinRoom t r "streamer" c = (t, [(c, Msg.error "Room already has a streamer")]))
    ∧ (c ∈ rm.viewers →
      joinRoom t r "viewer" c =
        (t, match rm.streamer with
            | some s => [(s, Msg.viewerJoined c)]
            | none => [])) := by
  constructor
  · intro hs
    rw [joinRoom_eq_some "streamer" c hget]
    unfold joinInRoom
    rw [if_pos rfl, hs]
  · intro hv
    rw [joinRoom_eq_some "viewer" c hget]
    unfold joinInRoom
    rw [if_neg (by decide : ¬("viewer" : String) = "streamer")]
    have haddv : addViewer rm.viewers c = rm.viewers := by
      unfold addViewer
      rw [if_pos hv]
    rw [haddv]
    have heta : (⟨rm.streamer, rm.viewers⟩ : Room) = rm := rfl
    rw [heta, tableSet_self hget]

/-- Witness for `rejoin_state_unchanged`: both re-join shapes at a concrete
state with streamer `S` and viewer `V` in room `R`. -/
theorem rejoin_state_unchanged_witness :
    joinRoom [("R", ⟨some "S", ["V"]⟩)] "R" "streamer" "S"
        = ([("R", ⟨some "S", ["V"]⟩)], [("S", Msg.error "Room already has a streamer")])
    ∧ joinRoom [("R", ⟨some "S", ["V"]⟩)] "R" "viewer" "V"
        = ([("R", ⟨some "S", ["V"]⟩)], [("S", Msg.viewerJoined "V")]) :=
  ⟨(rejoin_state_unchanged [("R", ⟨some "S", ["V"]⟩)] "R" "S"
      ⟨some "S", ["V"]⟩ (by decide)).1 rfl,
   (rejoin_state_unchanged [("R", ⟨some "S", ["V"]⟩)] "R" "V"
      ⟨some "S", ["V"]⟩ (by decide)).2 (by decide)⟩

/-- Claim C5 counterexample: the join handler never removes a connection
from slots it already occupies, so reachable states violate exclusivity.
After `join("A", viewer, "c")` followed by `join("A", streamer, "c")` the
connection `"c"` is simultaneously the streamer and a viewer of room `"A"`;
after viewer joins to `"A"` and `"B"` it sits in both rooms' viewer sets. -/
theorem dual_membership_counterexample :
    (tableGet (run [Op.join "A" "viewer" "c", Op.join "A" "streamer" "c"]) "A"
        = some ⟨some "c", ["c"]⟩)
    ∧ ("c" ∈ viewersOf (run [Op.join "A" "viewer" "c", Op.join "B" "viewer" "c"]) "A"
        ∧ "c" ∈ viewersOf (run [Op.join "A" "viewer" "c", Op.join "B" "viewer" "c"]) "B") := by
  decide

/-- Claim C5 amended: the coordinator does not enforce exclusivity across
roles or rooms — a connection can at once be a streamer and a viewer, or a
member of several rooms.  What does hold in every reachable state is the
per-room uniqueness the claim implies locally: each room's viewer set is
duplicate-free (a connection id appears at most once per viewer set), and
each streamer slot holds at most one id by construction. -/
theorem reachable_viewer_sets_nodup (ops : List Op) (r : String) (rm : Room)
    (hget : tableGet (run ops) r = some rm) : rm.viewers.Nodup := by
  have h0 : ViewersNodup ([] : RoomTable) := by
    intro e he
    simp at he
  have h := viewersNodup_runFrom ops h0
  exact h _ (tableGet_mem hget)

/-- Witness for `reachable_viewer_sets_nodup` on the state reached by one
viewer join. -/
theorem reachable_viewer_sets_nodup_witness :
    tableGet (run [Op.join "A" "viewer" "c"]) "A" = some ⟨none, ["c"]⟩
    ∧ (["c"] : List String).Nodup :=
  ⟨by decide,
   reachable_viewer_sets_nodup [Op.join "A" "viewer" "c"] "A" ⟨none, ["c"]⟩ (by decide)⟩

/-- Claim C6: when `C` is a viewer of room `r` and not its streamer, both
`leave-room` and `disconnect` remove exactly `C` from `r`'s viewer set,
notify the streamer — when present — with `viewer-disconnected` carrying `C`
and emit nothing else, and delete `r`'s entry exactly when the room is left
with neither a streamer nor any viewer.  The `disconnect` conjunct is stated
under unique table keys plus the hypothesis that `C` occupies no room other
than `r`. -/
theorem viewer_leave_removes_viewer (t : RoomTable) (r c : String) (rm : Room)
    (hget : tableGet t r = some rm)
    (hns : rm.streamer ≠ some c) (hv : c ∈ rm.viewers) (hnd : rm.viewers.Nodup)
    (hkeys : (t.map Prod.fst).Nodup)
    (hother : ∀ e ∈ t, e.1 ≠ r → e.2.streamer ≠ some c ∧ c ∉ e.2.viewers) :
    handleLeaveRoom t c r =
      ((if rm.streamer = none ∧ rm.viewers.erase c = [] then tableDelete t r
        else tableSet t r ⟨rm.streamer, rm.viewers.erase c⟩),
       (match rm.streamer with
        | some s => [(s, Msg.viewerDisconnected c)]
        | none => []))
    ∧ disconnect t c = handleLeaveRoom t c r
    ∧ c ∉ viewersOf (handleLeaveRoom t c r).1 r
    ∧ (tableGet (handleLeaveRoom t c r).1 r = none
        ↔ (rm.streamer = none ∧ rm.viewers.erase c = [])) := by
  have htd : teardown c rm =
      ((if rm.streamer = none ∧ rm.viewers.erase c = [] then none
        else some ⟨rm.streamer, rm.viewers.erase c⟩),
       (match rm.streamer with
        | some s => [(s, Msg.viewerDisconnected c)]
        | none => [])) := by
    unfold teardown
    rw [if_neg hns, if_pos hv]
  have hcfree : c ∉ rm.viewers.erase c := by
    intro hmem
    rcases (List.Nodup.mem_erase_iff hnd).1 hmem with ⟨hne, _⟩
    exact hne rfl
  have h1 : handleLeaveRoom t c r =
      ((if rm.streamer = none ∧ rm.viewers.erase c = [] then tableDelete t r
        else tableSet t r ⟨rm.streamer, rm.viewers.erase c⟩),
       (match rm.streamer with
        | some s => [(s, Msg.viewerDisconnected c)]
        | none => [])) := by
    rw [handleLeaveRoom_eq_some c hget, htd]
    by_cases hdel : rm.streamer = none ∧ rm.viewers.erase c = []
    · rw [if_pos hdel, if_pos hdel]
    · rw [if_neg hdel, if_neg hdel]
  refine ⟨h1, disconnect_eq_leave hget hkeys hother, ?_, ?_⟩
  · rw [h1]
    by_cases hdel : rm.streamer = none ∧ rm.viewers.erase c = []
    · simp [hdel, viewersOf, tableGet_delete_self]
    · simp only [hdel, if_false]
      simp [viewersOf, tableGet_set_self]
      exact hcfree
  · rw [h1]
    by_cases hdel : rm.streamer = none ∧ rm.viewers.erase c = []
    · simp [hdel, tableGet_delete_self]
    · simp only [hdel, if_false]
      simp [tableGet_set_self, hdel]

/-- Witness for `viewer_leave_removes_viewer`: viewer `V1` of room `R`
(streamer `S`, second viewer `V2`) departs; `V1` alone is removed, `S` is
notified, the room survives. -/
theorem viewer_leave_removes_viewer_witness :
    handleLeaveRoom [("R", ⟨some "S", ["V1", "V2"]⟩)] "V1" "R"
        = ([("R", ⟨some "S", ["V2"]⟩)], [("S", Msg.viewerDisconnected "V1")])
    ∧ disconnect [("R", ⟨some "S", ["V1", "V2"]⟩)] "V1"
        = handleLeaveRoom [("R", ⟨some "S", ["V1", "V2"]⟩)] "V1" "R"
    ∧ "V1" ∉ viewersOf (handleLeaveRoom [("R", ⟨some "S", ["V1", "V2"]⟩)] "V1" "R").1 "R"
    ∧ (tableGet (handleLeaveRoom [("R", ⟨some "S", ["V1", "V2"]⟩)] "V1" "R").1 "R" = none
        ↔ ((some "S" : Option String) = none
            ∧ (["V1", "V2"] : List String).erase "V1" = [])) :=
  viewer_leave_removes_viewer [("R", ⟨some "S", ["V1", "V2"]⟩)] "R" "V1"
    ⟨some "S", ["V1", "V2"]⟩ (by decide) (by decide) (by decide) (by decide)
    (by decide) (by decide)

/-- Claim C7: a `signal` addressed to the literal `"streamer"` for a room
with no registered streamer — including a room with no table entry at all —
delivers no message to any connection, reports no error to the sender, and
returns the table unchanged (the handler never mutates it). -/
theorem signal_to_missing_streamer_dropped (t : RoomTable) (payload r sender : String)
    (h : (tableGet t r).bind Room.streamer = none) :
    signalOp t "streamer" payload r sender = (t, []) := by
  cases hg : tableGet t r with
  | none => simp [signalOp, hg]
  | some rd =>
      have hs : rd.streamer = none := by
        rw [hg] at h
        simpa using h
      simp [signalOp, hg, hs]

/-- Witness for `signal_to_missing_streamer_dropped`: room `R` exists with a
waiting viewer but no streamer. -/
theorem signal_to_missing_streamer_dropped_witness :
    signalOp [("R", ⟨none, ["V"]⟩)] "streamer" "offer-sdp" "R" "V"
      = ([("R", ⟨none, ["V"]⟩)], []) :=
  signal_to_missing_streamer_dropped [("R", ⟨none, ["V"]⟩)] "offer-sdp" "R" "V" (by decide)

/-- Claim C8 counterexample: the `join-room` handler performs no boundary
validation.  A join with the empty room code is not rejected: it reads and
mutates the table, creating an entry keyed by the empty string, and nothing
is reported to the caller; a join whose role is neither of the two
enumerated values is processed as a viewer join instead of being rejected. -/
theorem join_no_validation_counterexample :
    joinRoom [] "" "streamer" "A" = ([("", ⟨some "A", []⟩)], [])
    ∧ joinRoom [] "R" "not-a-role" "A" = ([("R", ⟨none, ["A"]⟩)], []) := by
  decide

/-- Claim C8 amended: the server performs no validation of join requests: a
request whose role is any string other than `"streamer"` is handled exactly
as a viewer join, and a request with the empty room code reads and mutates
the table like any other code — afterwards an entry keyed by the empty
string exists — with no rejection reported to the caller. -/
theorem join_unvalidated (t : RoomTable) (r role c : String)
    (hrole : role ≠ "streamer") :
    joinRoom t r role c = joinRoom t r "viewer" c
    ∧ tableGet (joinRoom t "" role c).1 "" ≠ none := by
  constructor
  · cases hg : tableGet t r with
    | some room =>
        rw [joinRoom_eq_some role c hg, joinRoom_eq_some "viewer" c hg,
            joinInRoom_not_streamer hrole]
    | none =>
        rw [joinRoom_eq_none role c hg, joinRoom_eq_none "viewer" c hg,
            joinInRoom_not_streamer hrole]
  · cases hg : tableGet t "" with
    | some room =>
        rw [joinRoom_eq_some role c hg, joinInRoom_not_streamer hrole]
        unfold joinInRoom
        rw [if_neg (by decide : ¬("viewer" : String) = "streamer")]
        simp [tableGet_set_self]
    | none =>
        rw [joinRoom_eq_none role c hg, joinInRoom_not_streamer hrole]
        unfold joinInRoom
        rw [if_neg (by decide : ¬("viewer" : String) = "streamer")]
        simp [tableGet_set_self]

/-- Witness for `join_unvalidated` with the unrecognized role `"x"`. -/
theorem join_unvalidated_witness :
    joinRoom [] "R" "x" "A" = joinRoom [] "R" "viewer" "A"
    ∧ tableGet (joinRoom [] "" "x" "A").1 "" ≠ none :=
  join_unvalidated [] "R" "x" "A" (by decide)

/-- Claim C9: for a connection that is neither the streamer nor a viewer of
any room in the table, `leave-room` (with any room code) and `disconnect`
are silent no-ops: no message is emitted to any connection and the table is
returned unchanged. -/
theorem stranger_leave_disconnect_noop (t : RoomTable) (r c : String)
    (h : ∀ e ∈ t, e.2.streamer ≠ some c ∧ c ∉ e.2.viewers) :
    handleLeaveRoom t c r = (t, []) ∧ disconnect t c = (t, []) := by
  constructor
  · cases hg : tableGet t r with
    | none => exact handleLeaveRoom_eq_none c hg
    | some room =>
        have hh := h _ (tableGet_mem hg)
        rw [handleLeaveRoom_eq_some c hg, teardown_not_member hh.1 hh.2]
        show (tableSet t r room, ([] : List Emit)) = (t, [])
        rw [tableSet_self hg]
  · exact disconnect_clean h

/-- Witness for `stranger_leave_disconnect_noop`: connection `X` belongs to
no room; room `R` (with streamer `S` and viewer `V`) is untouched. -/
theorem stranger_leave_disconnect_noop_witness :
    handleLeaveRoom [("R", ⟨some "S", ["V"]⟩)] "X" "R" = ([("R", ⟨some "S", ["V"]⟩)], [])
    ∧ disconnect [("R", ⟨some "S", ["V"]⟩)] "X" = ([("R", ⟨some "S", ["V"]⟩)], []) :=
  stranger_leave_disconnect_noop [("R", ⟨some "S", ["V"]⟩)] "R" "X" (by decide)

/-- Claim C10: a `signal` whose destination is a concrete connection id —
anything other than the literal `"streamer"` — is forwarded as a
`streamer-signal` event to that id without consulting or mutating the room
table: for every table the same table comes back, and the emitted message
depends on neither the table, the supplied room value, the sender's
registration, nor the destination's registration. -/
theorem signal_direct_forward (t : RoomTable) (dest payload r sender : String)
    (h : dest ≠ "streamer") :
    signalOp t dest payload r sender = (t, [(dest, Msg.streamerSignal payload)]) := by
  unfold signalOp
  rw [if_neg h]

/-- Witness for `signal_direct_forward`: an unregistered sender signals an
unregistered destination through a room that has no entry. -/
theorem signal_direct_forward_witness :
    signalOp [] "v77" "answer-sdp" "no-such-room" "S"
      = ([], [("v77", Msg.streamerSignal "answer-sdp")]) :=
  signal_direct_forward [] "v77" "answer-sdp" "no-such-room" "S" (by decide)

end VideoStream
